import Mathlib

/-!
# Adafruit_EEPROM_I2C driver: shallow embedding and verified properties

The driver in `Adafruit_EEPROM_I2C.cpp` talks to its chip only through the
collaborator `Adafruit_I2CDevice` (`write`, `write_then_read`, `detected`,
`begin`) and through the platform call `delay`.  The collaborator is not part
of this repository, so it is a parameter of every driver function: a record of
state-transforming functions over an arbitrary world type `σ`.

Machine integers are natural numbers; the casts `(uint8_t)` and the wrap of
`addr++` on a `uint16_t` are written as explicit `% 256` and `% 65536`.
Caller memory reached through a `uint8_t *` is a function from the offset past
the pointer to the byte stored there.
-/

namespace EEPROM

/-! ## The bus collaborator -/

/-- The operations of `Adafruit_I2CDevice` (and the platform `delay`) that the
driver calls, over a world state `σ`.  `write_then_read payload n s` reports
whether the combined transaction succeeded, the bytes it placed in the read
buffer, and the next world state. -/
structure I2CDevice (σ : Type) where
  write : List Nat → σ → Bool × σ
  write_then_read : List Nat → Nat → σ → Bool × List Nat × σ
  detected : σ → Bool × σ
  delay : Nat → σ → σ

/-- One observable interaction of the driver with the outside world. -/
inductive Event where
  | write (payload : List Nat) (ok : Bool)
  | writeThenRead (payload : List Nat) (readLen : Nat) (ok : Bool) (data : List Nat)
  | detected (ack : Bool)
  | delay (ms : Nat)
  deriving DecidableEq, Repr

/-- The same bus with every call appended to a log kept next to the state. -/
def traced {σ : Type} (d : I2CDevice σ) : I2CDevice (σ × List Event) where
  write := fun p st =>
    let r := d.write p st.1
    (r.1, (r.2, st.2 ++ [Event.write p r.1]))
  write_then_read := fun p n st =>
    let r := d.write_then_read p n st.1
    (r.1, r.2.1, (r.2.2, st.2 ++ [Event.writeThenRead p n r.1 r.2.1]))
  detected := fun st =>
    let r := d.detected st.1
    (r.1, (r.2, st.2 ++ [Event.detected r.1]))
  delay := fun ms st => (d.delay ms st.1, st.2 ++ [Event.delay ms])

/-! ## The driver -/

/-- The loop `uint8_t timeout = 100; while (timeout--) { if (detected()) return
true; delay(1); }` with `timeout` counts left; falling out of the loop is the
result `false`. -/
def ackPoll {σ : Type} (d : I2CDevice σ) : Nat → σ → Bool × σ
  | 0, s => (false, s)
  | timeout + 1, s =>
    let r := d.detected s
    if r.1 then (true, r.2)
    else ackPoll d timeout (d.delay 1 r.2)

/-- `bool Adafruit_EEPROM_I2C::write(uint16_t addr, uint8_t value)`. -/
def write {σ : Type} (d : I2CDevice σ) (addr value : Nat) (s : σ) : Bool × σ :=
  let buff := [(addr >>> 8) % 256, addr % 256, value]
  let r := d.write buff s
  if !r.1 then (false, r.2)
  else ackPoll d 100 r.2

/-- `uint8_t Adafruit_EEPROM_I2C::read(uint16_t addr)`.  The two-byte array
`buff` is both the write payload and the one-byte read buffer, so `buff[0]`
afterwards is the first byte read, or still the address high byte when the
transaction delivered nothing. -/
def read {σ : Type} (d : I2CDevice σ) (addr : Nat) (s : σ) : Nat × σ :=
  let buff := [(addr >>> 8) % 256, addr % 256]
  let r := d.write_then_read buff 1 s
  if !r.1 then (0, r.2.2)
  else (r.2.1.headD ((addr >>> 8) % 256), r.2.2)

/-- `bool Adafruit_EEPROM_I2C::write(uint16_t addr, uint8_t *buffer, uint16_t
num)`: the loop `while (num--)`, with `buffer++` as a shift of the memory seen
past the pointer and `addr++` wrapping at 16 bits. -/
def writeBlock {σ : Type} (d : I2CDevice σ) :
    Nat → (Nat → Nat) → Nat → σ → Bool × σ
  | _, _, 0, s => (true, s)
  | addr, buffer, num + 1, s =>
    let r := write d addr (buffer 0) s
    if !r.1 then (false, r.2)
    else writeBlock d ((addr + 1) % 65536) (fun i => buffer (i + 1)) num r.2

/-- The body of `for (uint16_t i = 0; i < num; i++)` in the block read, with
`left = num - i` iterations still to run. -/
def readLoop {σ : Type} (d : I2CDevice σ) :
    Nat → Nat → Nat → (Nat → Nat) → σ → Bool × (Nat → Nat) × σ
  | 0, _, _, buffer, s => (true, buffer, s)
  | left + 1, i, addr, buffer, s =>
    let buff := [(addr >>> 8) % 256, addr % 256]
    let r := d.write_then_read buff 1 s
    if !r.1 then (false, buffer, r.2.2)
    else
      readLoop d left (i + 1) ((addr + 1) % 65536)
        (Function.update buffer i (r.2.1.headD ((addr >>> 8) % 256))) r.2.2

/-- `bool Adafruit_EEPROM_I2C::read(uint16_t addr, uint8_t *buffer, uint16_t
num)`; the result carries the caller's buffer after the call. -/
def readBlock {σ : Type} (d : I2CDevice σ) (addr : Nat) (buffer : Nat → Nat)
    (num : Nat) (s : σ) : Bool × (Nat → Nat) × σ :=
  readLoop d num 0 addr buffer s

/-! ## Observations on a log -/

/-- The bus write transactions in a log, in order: payload and success flag. -/
def busWrites : List Event → List (List Nat × Bool)
  | [] => []
  | Event.write p ok :: es => (p, ok) :: busWrites es
  | _ :: es => busWrites es

/-- Number of presence polls (`detected()` calls) in a log. -/
def pollCount : List Event → Nat
  | [] => 0
  | Event.detected _ :: es => pollCount es + 1
  | _ :: es => pollCount es

/-- Number of `delay` calls in a log. -/
def delayCount : List Event → Nat
  | [] => 0
  | Event.delay _ :: es => delayCount es + 1
  | _ :: es => delayCount es

/-- World state reached after `j` unanswered presence polls, each followed by
`delay(1)`: the state in which poll number `j + 1` is made. -/
def pollState {σ : Type} (d : I2CDevice σ) : Nat → σ → σ
  | 0, s => s
  | j + 1, s => d.delay 1 (d.detected (pollState d j s)).2

/-- The log of `j` unanswered polls: `detected` answering no, then `delay(1)`. -/
def missedPolls : Nat → List Event
  | 0 => []
  | j + 1 => Event.detected false :: Event.delay 1 :: missedPolls j

/-! ## Initialisation -/

/-- Modelled from the spec: the class declaration (`Adafruit_EEPROM_I2C.h`) is
not among the sources, so the members are taken from the specification's data
model (device handle = bus connection plus slave address, created by
initialisation) and from their uses in `begin` and the constructor.  A bus
handle (`I2C_HandleTypeDef *`) is named by a number; `i2c_dev` is `none` until
a `new Adafruit_I2CDevice(addr, hi2c)` has been stored in it (the constructor
assigns nothing to it), and then holds the address and handle the device
object was built with. -/
structure Driver where
  hi2c : Nat
  i2c_dev : Option (Nat × Nat)
  _addr : Nat
  deriving DecidableEq, Repr

/-- A call made on the collaborator class during `begin`. -/
inductive DevCall where
  | construct (addr handle : Nat)
  | begin (addr handle : Nat)
  deriving DecidableEq, Repr

/-- `Adafruit_EEPROM_I2C::Adafruit_EEPROM_I2C(void)`: `hi2c = &hi2c2`, when `hi2c2`
is the name of the default handle; no device object exists yet. -/
def Driver.new (hi2c2 : Nat) : Driver :=
  { hi2c := hi2c2, i2c_dev := none, _addr := 0 }

/-- `bool Adafruit_EEPROM_I2C::begin(uint8_t addr, I2C_HandleTypeDef *handle)`.
`handle = none` is the call with `NULL`; `ready h` says whether handle `h` is in
`HAL_I2C_STATE_READY`; `devBegin a h` is what `Adafruit_I2CDevice::begin()`
answers on the device object built from `a` and `h`.  The first component is
`none` when `i2c_dev->begin()` is reached with no device object behind the
pointer, which has no defined result.  The list records the calls made on the
collaborator. -/
def begin (ready : Nat → Bool) (devBegin : Nat → Nat → Bool) (drv : Driver)
    (addr : Nat) (handle : Option Nat) : Option Bool × Driver × List DevCall :=
  let r : Driver × List DevCall :=
    match handle with
    | none =>
      if ready drv.hi2c then
        ({ drv with i2c_dev := some (addr, drv.hi2c) }, [DevCall.construct addr drv.hi2c])
      else
        (drv, [])
    | some h =>
      ({ drv with hi2c := h, i2c_dev := some (addr, h) }, [DevCall.construct addr h])
  let drv2 : Driver := { r.1 with _addr := addr }
  match drv2.i2c_dev with
  | none => (none, drv2, r.2)
  | some (a, h) => (some (devBegin a h), drv2, r.2 ++ [DevCall.begin a h])

/-! ## Reference behaviours named by the specification -/

/-- The specification's "n sequential `writeByte` calls at addr, addr+1, …,
addr+n-1": every one of the `n` calls is made, whatever the earlier ones
returned; the result says whether all of them returned true. -/
def writeByteSeq {σ : Type} (d : I2CDevice σ) :
    Nat → (Nat → Nat) → Nat → σ → Bool × σ
  | _, _, 0, s => (true, s)
  | addr, buf, n + 1, s =>
    let r := write d addr (buf 0) s
    let r2 := writeByteSeq d ((addr + 1) % 65536) (fun i => buf (i + 1)) n r.2
    (r.1 && r2.1, r2.2)

/-- World state after the combined transactions for `addr`, `addr + 1`, …,
`addr + j - 1` have been issued one after the other. -/
def busAfterReads {σ : Type} (d : I2CDevice σ) : Nat → Nat → σ → σ
  | 0, _, s => s
  | j + 1, addr, s =>
    busAfterReads d j ((addr + 1) % 65536)
      (d.write_then_read [(addr >>> 8) % 256, addr % 256] 1 s).2.2

/-- Outcome of transaction number `j` (from 0) of such a run: success flag and
bytes delivered. -/
def nthRead {σ : Type} (d : I2CDevice σ) (addr : Nat) (s : σ) (j : Nat) :
    Bool × List Nat :=
  let r := d.write_then_read
    [(((addr + j) % 65536) >>> 8) % 256, (addr + j) % 65536 % 256] 1
    (busAfterReads d j addr s)
  (r.1, r.2.1)

/-- The byte transaction number `j` leaves in the driver's `buff[0]`: the first
byte delivered (the address high byte stays there if nothing was delivered). -/
def byteAt {σ : Type} (d : I2CDevice σ) (addr : Nat) (s : σ) (j : Nat) : Nat :=
  (nthRead d addr s j).2.headD ((((addr + j) % 65536) >>> 8) % 256)

/-- The log of transactions `0 .. m-1` of such a run: each a write-then-read of
the 2-byte address `addr + j` with read length 1. -/
def readLog {σ : Type} (d : I2CDevice σ) (addr : Nat) (s : σ) (m : Nat) : List Event :=
  (List.range m).map (fun j =>
    Event.writeThenRead [(((addr + j) % 65536) >>> 8) % 256, (addr + j) % 65536 % 256] 1
      (nthRead d addr s j).1 (nthRead d addr s j).2)

/-! ## A simulated chip -/

/-- State of the simulated chip: its memory, the milliseconds its internal
write cycle still needs, and the number of bus transactions seen so far. -/
structure Sim where
  mem : Nat → Nat
  busy : Nat
  calls : Nat

/-- An erased chip, idle. -/
def Sim.init : Sim := { mem := fun _ => 0, busy := 0, calls := 0 }

/-- A simulated bus.  Transaction number `c` fails when `fails c`; a successful
3-byte write stores its third byte at the address given by the first two and
keeps the chip busy for `cycle` milliseconds; a successful write-then-read of a
2-byte address delivers the stored byte; a presence poll is acknowledged when
the chip is not busy. -/
def simBus (cycle : Nat) (fails : Nat → Bool) : I2CDevice Sim where
  write := fun p s =>
    if fails s.calls then (false, { s with calls := s.calls + 1 })
    else
      match p with
      | [hi, lo, v] =>
        (true, { mem := Function.update s.mem (256 * hi + lo) v, busy := cycle,
                 calls := s.calls + 1 })
      | _ => (true, { s with calls := s.calls + 1 })
  write_then_read := fun p _ s =>
    if fails s.calls then (false, [], { s with calls := s.calls + 1 })
    else
      match p with
      | [hi, lo] => (true, [s.mem (256 * hi + lo)], { s with calls := s.calls + 1 })
      | _ => (true, [], { s with calls := s.calls + 1 })
  detected := fun s => (s.busy == 0, s)
  delay := fun ms s => { s with busy := s.busy - ms }

/-! ## Theorems -/

section Erasure

variable {σ : Type} (d : I2CDevice σ)

theorem traced_write (p : List Nat) (s : σ) (τ : List Event) :
    (traced d).write p (s, τ) =
      ((d.write p s).1, (d.write p s).2, τ ++ [Event.write p (d.write p s).1]) := rfl

theorem traced_write_then_read (p : List Nat) (n : Nat) (s : σ) (τ : List Event) :
    (traced d).write_then_read p n (s, τ) =
      ((d.write_then_read p n s).1, (d.write_then_read p n s).2.1,
        (d.write_then_read p n s).2.2,
        τ ++ [Event.writeThenRead p n (d.write_then_read p n s).1
                (d.write_then_read p n s).2.1]) := rfl

theorem traced_detected (s : σ) (τ : List Event) :
    (traced d).detected (s, τ) =
      ((d.detected s).1, (d.detected s).2, τ ++ [Event.detected (d.detected s).1]) := rfl

theorem traced_delay (ms : Nat) (s : σ) (τ : List Event) :
    (traced d).delay ms (s, τ) = (d.delay ms s, τ ++ [Event.delay ms]) := rfl

theorem ackPoll_zero (s : σ) : ackPoll d 0 s = (false, s) := rfl

theorem ackPoll_ack (t : Nat) (s : σ) (h : (d.detected s).1 = true) :
    ackPoll d (t + 1) s = (true, (d.detected s).2) := by
  simp [ackPoll, h]

theorem ackPoll_nack (t : Nat) (s : σ) (h : (d.detected s).1 = false) :
    ackPoll d (t + 1) s = ackPoll d t (d.delay 1 (d.detected s).2) := by
  simp [ackPoll, h]

/-- Running the poll loop on the logging bus gives the result and world of the
plain run, and extends the log it started from. -/
theorem ackPoll_traced (t : Nat) (s : σ) (τ : List Event) :
    (ackPoll (traced d) t (s, τ)).1 = (ackPoll d t s).1 ∧
    (ackPoll (traced d) t (s, τ)).2.1 = (ackPoll d t s).2 ∧
    (ackPoll (traced d) t (s, τ)).2.2 = τ ++ (ackPoll (traced d) t (s, [])).2.2 := by
  induction t generalizing s τ with
  | zero => simp [ackPoll_zero]
  | succ t ih =>
    cases h : (d.detected s).1 with
    | true =>
      have e1 : ∀ τ, ((traced d).detected (s, τ)).1 = true := fun τ => by
        rw [traced_detected]; exact h
      rw [ackPoll_ack (traced d) t (s, τ) (e1 τ), ackPoll_ack (traced d) t (s, []) (e1 []),
        ackPoll_ack d t s h]
      simp [traced_detected]
    | false =>
      have e1 : ∀ τ, ((traced d).detected (s, τ)).1 = false := fun τ => by
        rw [traced_detected]; exact h
      rw [ackPoll_nack (traced d) t (s, τ) (e1 τ), ackPoll_nack (traced d) t (s, []) (e1 []),
        ackPoll_nack d t s h]
      simp only [traced_detected, traced_delay]
      have h1 := ih (d.delay 1 (d.detected s).2)
        (τ ++ [Event.detected (d.detected s).1] ++ [Event.delay 1])
      have h2 := ih (d.delay 1 (d.detected s).2)
        ([] ++ [Event.detected (d.detected s).1] ++ [Event.delay 1])
      refine ⟨h1.1, h1.2.1, ?_⟩
      rw [h1.2.2, h2.2.2]
      simp [List.append_assoc]

theorem write_fail (addr value : Nat) (s : σ)
    (h : (d.write [(addr >>> 8) % 256, addr % 256, value] s).1 = false) :
    write d addr value s = (false, (d.write [(addr >>> 8) % 256, addr % 256, value] s).2) := by
  simp [write, h]

theorem write_ok (addr value : Nat) (s : σ)
    (h : (d.write [(addr >>> 8) % 256, addr % 256, value] s).1 = true) :
    write d addr value s =
      ackPoll d 100 (d.write [(addr >>> 8) % 256, addr % 256, value] s).2 := by
  simp [write, h]

/-- The log of a single-byte write: the write transaction, then the polls. -/
theorem write_log (addr value : Nat) (s : σ) (τ : List Event) :
    (write (traced d) addr value (s, τ)).2.2 =
      τ ++ Event.write [(addr >>> 8) % 256, addr % 256, value]
          (d.write [(addr >>> 8) % 256, addr % 256, value] s).1 ::
        (if (d.write [(addr >>> 8) % 256, addr % 256, value] s).1 then
          (ackPoll (traced d) 100
            ((d.write [(addr >>> 8) % 256, addr % 256, value] s).2, [])).2.2
         else []) := by
  cases h : (d.write [(addr >>> 8) % 256, addr % 256, value] s).1 with
  | false =>
    rw [write_fail (traced d) addr value (s, τ) (by rw [traced_write]; exact h)]
    simp [traced_write, h]
  | true =>
    rw [write_ok (traced d) addr value (s, τ) (by rw [traced_write]; exact h)]
    simp only [traced_write, if_true]
    rw [(ackPoll_traced d 100 _ _).2.2, h]
    simp

theorem write_traced (addr value : Nat) (s : σ) (τ : List Event) :
    (write (traced d) addr value (s, τ)).1 = (write d addr value s).1 ∧
    (write (traced d) addr value (s, τ)).2.1 = (write d addr value s).2 ∧
    (write (traced d) addr value (s, τ)).2.2 =
      τ ++ (write (traced d) addr value (s, [])).2.2 := by
  refine ⟨?_, ?_, ?_⟩
  · cases h : (d.write [(addr >>> 8) % 256, addr % 256, value] s).1 with
    | false =>
      rw [write_fail (traced d) addr value (s, τ) (by rw [traced_write]; exact h),
        write_fail d addr value s h]
    | true =>
      rw [write_ok (traced d) addr value (s, τ) (by rw [traced_write]; exact h),
        write_ok d addr value s h]
      simp only [traced_write]
      exact (ackPoll_traced d 100 _ _).1
  · cases h : (d.write [(addr >>> 8) % 256, addr % 256, value] s).1 with
    | false =>
      rw [write_fail (traced d) addr value (s, τ) (by rw [traced_write]; exact h),
        write_fail d addr value s h]
      simp [traced_write]
    | true =>
      rw [write_ok (traced d) addr value (s, τ) (by rw [traced_write]; exact h),
        write_ok d addr value s h]
      simp only [traced_write]
      exact (ackPoll_traced d 100 _ _).2.1
  · rw [write_log, write_log]; simp

end Erasure

section Polling

variable {σ : Type} (d : I2CDevice σ)

theorem busWrites_append (a b : List Event) :
    busWrites (a ++ b) = busWrites a ++ busWrites b := by
  induction a with
  | nil => rfl
  | cons e es ih => cases e <;> simp [busWrites, ih]

theorem pollCount_append (a b : List Event) :
    pollCount (a ++ b) = pollCount a + pollCount b := by
  induction a with
  | nil => simp [pollCount]
  | cons e es ih =>
    cases e <;> simp [pollCount, ih]
    omega

theorem delayCount_append (a b : List Event) :
    delayCount (a ++ b) = delayCount a + delayCount b := by
  induction a with
  | nil => simp [delayCount]
  | cons e es ih =>
    cases e <;> simp [delayCount, ih]
    omega

theorem missedPolls_succ (j : Nat) :
    missedPolls (j + 1) = missedPolls j ++ [Event.detected false, Event.delay 1] := by
  induction j with
  | zero => rfl
  | succ j ih =>
    show Event.detected false :: Event.delay 1 :: missedPolls (j + 1) =
      (Event.detected false :: Event.delay 1 :: missedPolls j) ++ _
    rw [ih]; rfl

theorem pollCount_missedPolls (j : Nat) : pollCount (missedPolls j) = j := by
  induction j with
  | zero => rfl
  | succ j ih => simp [missedPolls, pollCount, ih]

theorem delayCount_missedPolls (j : Nat) : delayCount (missedPolls j) = j := by
  induction j with
  | zero => rfl
  | succ j ih => simp [missedPolls, delayCount, ih]

theorem busWrites_missedPolls (j : Nat) : busWrites (missedPolls j) = [] := by
  induction j with
  | zero => rfl
  | succ j ih => simp [missedPolls, busWrites, ih]

theorem ack_not_mem_missedPolls (j : Nat) : Event.detected true ∉ missedPolls j := by
  induction j with
  | zero => simp [missedPolls]
  | succ j ih => simp [missedPolls, ih]

/-- While the first `j` polls go unanswered the loop only burns `j` counts. -/
theorem ackPoll_skip (j t : Nat) (s : σ) (τ : List Event)
    (h : ∀ i, i < j → (d.detected (pollState d i s)).1 = false) :
    ackPoll (traced d) (j + t) (s, τ) =
      ackPoll (traced d) t (pollState d j s, τ ++ missedPolls j) := by
  induction j generalizing t with
  | zero => simp [pollState, missedPolls]
  | succ j ih =>
    have hj := h j (Nat.lt_succ_self j)
    have e : j + 1 + t = j + (t + 1) := by omega
    rw [e, ih (t + 1) (fun i hi => h i (Nat.lt_succ_of_lt hi))]
    rw [ackPoll_nack (traced d) t _ (by rw [traced_detected]; exact hj)]
    simp only [traced_detected, traced_delay, hj, missedPolls_succ, pollState]
    simp [List.append_assoc]

/-- The poll loop answers yes exactly when some poll in its log was answered. -/
theorem ackPoll_log (t : Nat) (s : σ) :
    ∃ j, j ≤ t ∧
      (ackPoll (traced d) t (s, [])).2.2 =
        missedPolls j ++ (if (ackPoll d t s).1 then [Event.detected true] else []) ∧
      ((ackPoll d t s).1 = false → j = t) ∧
      ((ackPoll d t s).1 = true → j < t) := by
  induction t generalizing s with
  | zero => exact ⟨0, le_refl _, by simp [ackPoll_zero, missedPolls], by simp, by simp [ackPoll_zero]⟩
  | succ t ih =>
    cases h : (d.detected s).1 with
    | true =>
      refine ⟨0, Nat.zero_le _, ?_, ?_, ?_⟩
      · rw [ackPoll_ack (traced d) t (s, []) (by rw [traced_detected]; exact h),
          ackPoll_ack d t s h]
        simp [traced_detected, h, missedPolls]
      · rw [ackPoll_ack d t s h]; simp
      · intro _; omega
    | false =>
      obtain ⟨j, hj, hlog, hf, ht⟩ := ih (d.delay 1 (d.detected s).2)
      refine ⟨j + 1, by omega, ?_, ?_, ?_⟩
      · rw [ackPoll_nack (traced d) t (s, []) (by rw [traced_detected]; exact h),
          ackPoll_nack d t s h]
        simp only [traced_detected, traced_delay]
        rw [(ackPoll_traced d t _ _).2.2, hlog, h]
        simp [missedPolls]
      · rw [ackPoll_nack d t s h]; intro hh; rw [hf hh]
      · rw [ackPoll_nack d t s h]; intro hh; have := ht hh; omega

end Polling

section SingleByte

variable {σ : Type} (d : I2CDevice σ)

theorem busWrites_ackPoll (t : Nat) (s : σ) :
    busWrites (ackPoll (traced d) t (s, [])).2.2 = [] := by
  obtain ⟨j, _, hlog, _, _⟩ := ackPoll_log d t s
  rw [hlog, busWrites_append, busWrites_missedPolls]
  cases (ackPoll d t s).1 <;> simp [busWrites]

theorem busWrites_write (addr v : Nat) (s : σ) :
    busWrites (write (traced d) addr v (s, [])).2.2 =
      [([(addr >>> 8) % 256, addr % 256, v],
        (d.write [(addr >>> 8) % 256, addr % 256, v] s).1)] := by
  rw [write_log]
  simp only [List.nil_append, busWrites]
  cases (d.write [(addr >>> 8) % 256, addr % 256, v] s).1 with
  | false => simp [busWrites]
  | true => simp [busWrites_ackPoll]

theorem shiftRight8_mod (addr : Nat) (h : addr < 65536) : (addr >>> 8) % 256 = addr / 256 := by
  rw [Nat.shiftRight_eq_div_pow]
  omega

/-- C3: on a 16-bit address, `writeByte(addr, v)` issues exactly one bus write
transaction, it is the first thing the call does, and its payload is the three
bytes address high, address low, value, with `256 * high + low = addr`. -/
theorem write_wire_layout (addr v : Nat) (s : σ) (h : addr < 65536) :
    (write (traced d) addr v (s, [])).2.2.head? =
        some (Event.write [addr / 256, addr % 256, v]
          (d.write [addr / 256, addr % 256, v] s).1) ∧
    busWrites (write (traced d) addr v (s, [])).2.2 =
      [([addr / 256, addr % 256, v], (d.write [addr / 256, addr % 256, v] s).1)] ∧
    [addr / 256, addr % 256, v].length = 3 ∧
    256 * (addr / 256) + addr % 256 = addr := by
  rw [busWrites_write, write_log, shiftRight8_mod addr h]
  exact ⟨by simp, rfl, rfl, by omega⟩

/-- C8: after a successful bus write transaction, if none of the first 100
presence polls is acknowledged `writeByte` returns false having made exactly
100 polls (each followed by `delay(1)`); and if poll number `j`, `1 ≤ j ≤ 100`,
is the first acknowledged one it returns true having made exactly `j` polls. -/
theorem write_poll_boundary (addr v : Nat) (s : σ)
    (hw : (d.write [(addr >>> 8) % 256, addr % 256, v] s).1 = true) :
    ((∀ i, i < 100 →
        (d.detected (pollState d i
          (d.write [(addr >>> 8) % 256, addr % 256, v] s).2)).1 = false) →
      (write d addr v s).1 = false ∧
      (write (traced d) addr v (s, [])).2.2 =
        Event.write [(addr >>> 8) % 256, addr % 256, v] true :: missedPolls 100 ∧
      pollCount (write (traced d) addr v (s, [])).2.2 = 100) ∧
    (∀ j, 1 ≤ j → j ≤ 100 →
      (∀ i, i < j - 1 →
        (d.detected (pollState d i
          (d.write [(addr >>> 8) % 256, addr % 256, v] s).2)).1 = false) →
      (d.detected (pollState d (j - 1)
          (d.write [(addr >>> 8) % 256, addr % 256, v] s).2)).1 = true →
      (write d addr v s).1 = true ∧
      (write (traced d) addr v (s, [])).2.2 =
        Event.write [(addr >>> 8) % 256, addr % 256, v] true ::
          (missedPolls (j - 1) ++ [Event.detected true]) ∧
      pollCount (write (traced d) addr v (s, [])).2.2 = j) := by
  have hres := (write_traced d addr v s []).1
  have hw2 : ((traced d).write [(addr >>> 8) % 256, addr % 256, v] (s, [])).1 = true := by
    rw [traced_write]; exact hw
  constructor
  · intro hn
    have e := ackPoll_skip d 100 0 (d.write [(addr >>> 8) % 256, addr % 256, v] s).2
      [Event.write [(addr >>> 8) % 256, addr % 256, v] true] hn
    have hrun : write (traced d) addr v (s, []) =
        (false, pollState d 100 (d.write [(addr >>> 8) % 256, addr % 256, v] s).2,
          Event.write [(addr >>> 8) % 256, addr % 256, v] true :: missedPolls 100) := by
      rw [write_ok (traced d) addr v (s, []) hw2, traced_write, hw]
      simpa [ackPoll_zero] using e
    refine ⟨?_, ?_, ?_⟩
    · rw [← hres, hrun]
    · rw [hrun]
    · rw [hrun]; simp [pollCount, pollCount_missedPolls]
  · intro j h1 h100 hn hack
    have e := ackPoll_skip d (j - 1) (100 - (j - 1))
      (d.write [(addr >>> 8) % 256, addr % 256, v] s).2
      [Event.write [(addr >>> 8) % 256, addr % 256, v] true] hn
    have e100 : j - 1 + (100 - (j - 1)) = 100 := by omega
    have e101 : 100 - (j - 1) = (100 - j) + 1 := by omega
    rw [e100, e101] at e
    rw [ackPoll_ack (traced d) (100 - j) _ (by rw [traced_detected]; exact hack)] at e
    have hrun : (write (traced d) addr v (s, [])).1 = true ∧
        (write (traced d) addr v (s, [])).2.2 =
          Event.write [(addr >>> 8) % 256, addr % 256, v] true ::
            (missedPolls (j - 1) ++ [Event.detected true]) := by
      rw [write_ok (traced d) addr v (s, []) hw2, traced_write, hw]
      simp only [List.nil_append]
      rw [e]
      simp [traced_detected, hack]
    refine ⟨?_, hrun.2, ?_⟩
    · rw [← hres]; exact hrun.1
    · rw [hrun.2]
      simp only [pollCount, pollCount_append, pollCount_missedPolls]
      omega

/-- C9: on a 16-bit address, `readByte(addr)` issues exactly one combined
write-then-read transaction, with write payload address high, address low and
read length 1; it returns 0 when that transaction fails and the first byte the
transaction delivered when it succeeds. -/
theorem read_single_transaction (addr : Nat) (s : σ) (h : addr < 65536) :
    (read (traced d) addr (s, [])).2.2 =
      [Event.writeThenRead [addr / 256, addr % 256] 1
        (d.write_then_read [addr / 256, addr % 256] 1 s).1
        (d.write_then_read [addr / 256, addr % 256] 1 s).2.1] ∧
    (read (traced d) addr (s, [])).1 = (read d addr s).1 ∧
    ((d.write_then_read [addr / 256, addr % 256] 1 s).1 = false → (read d addr s).1 = 0) ∧
    (∀ b rest, (d.write_then_read [addr / 256, addr % 256] 1 s).1 = true →
      (d.write_then_read [addr / 256, addr % 256] 1 s).2.1 = b :: rest →
      (read d addr s).1 = b) := by
  simp only [read, shiftRight8_mod addr h, traced_write_then_read]
  cases hr : (d.write_then_read [addr / 256, addr % 256] 1 s).1 with
  | false => simp
  | true =>
    simp only [Bool.not_true, Bool.false_eq_true, if_false, List.nil_append, true_and]
    refine ⟨by simp, ?_⟩
    intro b rest _ hd
    rw [hd]; rfl

end SingleByte

section RoundTrip

variable {σ : Type} (d : I2CDevice σ)

/-- An acknowledged poll among the first `t` makes the poll loop succeed. -/
theorem ackPoll_of_ack (t : Nat) (s : σ)
    (h : ∃ j, j < t ∧ (d.detected (pollState d j s)).1 = true) :
    (ackPoll d t s).1 = true := by
  classical
  have hex : ∃ j, (d.detected (pollState d j s)).1 = true := ⟨h.choose, h.choose_spec.2⟩
  have hlt : Nat.find hex < t :=
    lt_of_le_of_lt (Nat.find_min' hex h.choose_spec.2) h.choose_spec.1
  have hmin : ∀ i, i < Nat.find hex → (d.detected (pollState d i s)).1 = false := by
    intro i hi
    have := Nat.find_min hex hi
    simpa using this
  have e := ackPoll_skip d (Nat.find hex) (t - Nat.find hex) s [] hmin
  have e1 : Nat.find hex + (t - Nat.find hex) = t := by omega
  have e2 : t - Nat.find hex = (t - Nat.find hex - 1) + 1 := by omega
  rw [e1, e2, ackPoll_ack (traced d) _ _ (by rw [traced_detected]; exact Nat.find_spec hex)] at e
  rw [← (ackPoll_traced d t s []).1, e]

/-- The poll loop leaves alone whatever polls and delays leave alone. -/
theorem ackPoll_preserves {α : Type} (f : σ → α)
    (hdet : ∀ s, f (d.detected s).2 = f s) (hdelay : ∀ ms s, f (d.delay ms s) = f s)
    (t : Nat) (s : σ) : f (ackPoll d t s).2 = f s := by
  induction t generalizing s with
  | zero => rfl
  | succ t ih =>
    cases h : (d.detected s).1 with
    | true => rw [ackPoll_ack d t s h, hdet]
    | false => rw [ackPoll_nack d t s h, ih, hdelay, hdet]

/-- C1: on a bus whose chip memory `mem` takes the value byte of every 3-byte
write at the address given by its first two bytes, is left alone by polls and
delays, acknowledges one of the first 100 polls after a write, and answers a
write-then-read of a 2-byte address with the byte stored there, `writeByte(addr,
v)` returns true and a following `readByte(addr)` returns `v`. -/
theorem write_read_round_trip (mem : σ → Nat → Nat)
    (hstore : ∀ hi lo v s, hi < 256 → lo < 256 → v < 256 →
      (d.write [hi, lo, v] s).1 = true ∧ mem (d.write [hi, lo, v] s).2 (256 * hi + lo) = v)
    (hdet : ∀ s, mem (d.detected s).2 = mem s)
    (hdelay : ∀ ms s, mem (d.delay ms s) = mem s)
    (hack : ∀ hi lo v s, ∃ j, j < 100 ∧
      (d.detected (pollState d j (d.write [hi, lo, v] s).2)).1 = true)
    (hread : ∀ hi lo s, hi < 256 → lo < 256 →
      (d.write_then_read [hi, lo] 1 s).1 = true ∧
      (d.write_then_read [hi, lo] 1 s).2.1 = [mem s (256 * hi + lo)])
    (addr v : Nat) (s : σ) (hv : v < 256) :
    (write d addr v s).1 = true ∧ (read d addr (write d addr v s).2).1 = v := by
  have hhi : (addr >>> 8) % 256 < 256 := Nat.mod_lt _ (by decide)
  have hlo : addr % 256 < 256 := Nat.mod_lt _ (by decide)
  have hst := hstore _ _ v s hhi hlo hv
  have hw := write_ok d addr v s hst.1
  have hmem : mem (write d addr v s).2 = mem (d.write [(addr >>> 8) % 256, addr % 256, v] s).2 := by
    rw [hw]; exact ackPoll_preserves d mem hdet hdelay 100 _
  constructor
  · rw [hw]; exact ackPoll_of_ack d 100 _ (hack _ _ v s)
  · have hr := hread _ _ (write d addr v s).2 hhi hlo
    simp only [read, hr.1, hr.2, hmem, hst.2]
    rfl

end RoundTrip

section WriteResult

variable {σ : Type} (d : I2CDevice σ)

/-- When none of the first `t` polls is acknowledged the poll loop reports no. -/
theorem ackPoll_of_no_ack (t : Nat) (s : σ)
    (h : ∀ j, j < t → (d.detected (pollState d j s)).1 = false) :
    (ackPoll d t s).1 = false := by
  have e := ackPoll_skip d t 0 s [] h
  rw [Nat.add_zero, ackPoll_zero] at e
  rw [← (ackPoll_traced d t s []).1, e]

/-- The poll loop reports yes exactly when the device acknowledges one of the
first `t` polls. -/
theorem ackPoll_true_iff (t : Nat) (s : σ) :
    (ackPoll d t s).1 = true ↔ ∃ j, j < t ∧ (d.detected (pollState d j s)).1 = true := by
  constructor
  · intro h
    by_contra hne
    have hall : ∀ j, j < t → (d.detected (pollState d j s)).1 = false := by
      intro j hj
      cases hd : (d.detected (pollState d j s)).1 with
      | false => rfl
      | true => exact absurd ⟨j, hj, hd⟩ hne
    rw [ackPoll_of_no_ack d t s hall] at h
    exact absurd h (by simp)
  · exact ackPoll_of_ack d t s

/-- C2: `writeByte` returns true exactly when the bus write transaction
succeeds and the device acknowledges one of the first 100 presence polls made
after it (poll `j + 1` being made in the world left by `j` unanswered polls,
each followed by `delay(1)`); on the log, true is returned exactly when the
write succeeded and an acknowledged poll follows it; at most 100 polls are
made; and when the write transaction fails the call returns false with the
failed transaction as its only bus activity (no poll, no delay). -/
theorem write_true_iff (addr v : Nat) (s : σ) :
    ((write d addr v s).1 = true ↔
      ((d.write [(addr >>> 8) % 256, addr % 256, v] s).1 = true ∧
        ∃ j, j < 100 ∧
          (d.detected (pollState d j
            (d.write [(addr >>> 8) % 256, addr % 256, v] s).2)).1 = true)) ∧
    (write (traced d) addr v (s, [])).1 = (write d addr v s).1 ∧
    (write (traced d) addr v (s, [])).2.2.head? =
      some (Event.write [(addr >>> 8) % 256, addr % 256, v]
        (d.write [(addr >>> 8) % 256, addr % 256, v] s).1) ∧
    ((write d addr v s).1 = true ↔
      ((d.write [(addr >>> 8) % 256, addr % 256, v] s).1 = true ∧
        Event.detected true ∈ (write (traced d) addr v (s, [])).2.2.tail)) ∧
    pollCount (write (traced d) addr v (s, [])).2.2.tail ≤ 100 ∧
    ((d.write [(addr >>> 8) % 256, addr % 256, v] s).1 = false →
      (write d addr v s).1 = false ∧
      (write (traced d) addr v (s, [])).2.2 =
        [Event.write [(addr >>> 8) % 256, addr % 256, v] false]) := by
  refine ⟨?_, (write_traced d addr v s []).1, by rw [write_log]; simp, ?_, ?_, ?_⟩
  · cases h : (d.write [(addr >>> 8) % 256, addr % 256, v] s).1 with
    | false => simp [write_fail d addr v s h]
    | true =>
      rw [write_ok d addr v s h, ackPoll_true_iff]
      simp
  · rw [write_log]
    cases h : (d.write [(addr >>> 8) % 256, addr % 256, v] s).1 with
    | false => simp [write_fail d addr v s h]
    | true =>
      rw [write_ok d addr v s h]
      obtain ⟨j, _, hlog, _, _⟩ :=
        ackPoll_log d 100 (d.write [(addr >>> 8) % 256, addr % 256, v] s).2
      simp only [List.nil_append, List.tail_cons, if_true, true_and]
      rw [hlog]
      cases (ackPoll d 100 (d.write [(addr >>> 8) % 256, addr % 256, v] s).2).1 with
      | false => simp [ack_not_mem_missedPolls]
      | true => simp
  · rw [write_log]
    cases h : (d.write [(addr >>> 8) % 256, addr % 256, v] s).1 with
    | false => simp [pollCount]
    | true =>
      obtain ⟨j, hj, hlog, _, hlt⟩ :=
        ackPoll_log d 100 (d.write [(addr >>> 8) % 256, addr % 256, v] s).2
      simp only [List.nil_append, List.tail_cons, if_true]
      rw [hlog, pollCount_append, pollCount_missedPolls]
      cases hr : (ackPoll d 100 (d.write [(addr >>> 8) % 256, addr % 256, v] s).2).1 with
      | false => simp [pollCount]; exact hj
      | true =>
        have := hlt hr
        simp [pollCount]; omega
  · intro h
    rw [write_log, write_fail d addr v s h, h]
    simp

end WriteResult

section BlockWrite

variable {σ : Type} (d : I2CDevice σ)

theorem writeBlock_zero (addr : Nat) (buf : Nat → Nat) (s : σ) :
    writeBlock d addr buf 0 s = (true, s) := rfl

theorem writeBlock_fail (addr : Nat) (buf : Nat → Nat) (n : Nat) (s : σ)
    (h : (write d addr (buf 0) s).1 = false) :
    writeBlock d addr buf (n + 1) s = (false, (write d addr (buf 0) s).2) := by
  simp [writeBlock, h]

theorem writeBlock_ok (addr : Nat) (buf : Nat → Nat) (n : Nat) (s : σ)
    (h : (write d addr (buf 0) s).1 = true) :
    writeBlock d addr buf (n + 1) s =
      writeBlock d ((addr + 1) % 65536) (fun i => buf (i + 1)) n (write d addr (buf 0) s).2 := by
  simp [writeBlock, h]

theorem writeByteSeq_zero (addr : Nat) (buf : Nat → Nat) (s : σ) :
    writeByteSeq d addr buf 0 s = (true, s) := rfl

theorem writeByteSeq_succ (addr : Nat) (buf : Nat → Nat) (n : Nat) (s : σ) :
    writeByteSeq d addr buf (n + 1) s =
      ((write d addr (buf 0) s).1 &&
        (writeByteSeq d ((addr + 1) % 65536) (fun i => buf (i + 1)) n
          (write d addr (buf 0) s).2).1,
       (writeByteSeq d ((addr + 1) % 65536) (fun i => buf (i + 1)) n
          (write d addr (buf 0) s).2).2) := rfl

/-- The sequential calls on the logging bus: same result and world as on the
plain bus, and the log they started from is only extended. -/
theorem writeByteSeq_traced (addr : Nat) (buf : Nat → Nat) (n : Nat) (s : σ)
    (τ : List Event) :
    (writeByteSeq (traced d) addr buf n (s, τ)).1 = (writeByteSeq d addr buf n s).1 ∧
    (writeByteSeq (traced d) addr buf n (s, τ)).2.1 = (writeByteSeq d addr buf n s).2 ∧
    (writeByteSeq (traced d) addr buf n (s, τ)).2.2 =
      τ ++ (writeByteSeq (traced d) addr buf n (s, [])).2.2 := by
  induction n generalizing addr buf s τ with
  | zero => simp [writeByteSeq_zero]
  | succ n ih =>
    have hw := write_traced d addr (buf 0) s τ
    have hw0 := write_traced d addr (buf 0) s []
    have e : ∀ ρ, write (traced d) addr (buf 0) (s, ρ) =
        ((write (traced d) addr (buf 0) (s, ρ)).1, (write d addr (buf 0) s).2,
          (write (traced d) addr (buf 0) (s, ρ)).2.2) := by
      intro ρ
      rw [← (write_traced d addr (buf 0) s ρ).2.1]
    have h1 := ih ((addr + 1) % 65536) (fun i => buf (i + 1)) (write d addr (buf 0) s).2
      (write (traced d) addr (buf 0) (s, τ)).2.2
    have h2 := ih ((addr + 1) % 65536) (fun i => buf (i + 1)) (write d addr (buf 0) s).2
      (write (traced d) addr (buf 0) (s, [])).2.2
    rw [writeByteSeq_succ, writeByteSeq_succ, writeByteSeq_succ]
    rw [e τ, e []]
    simp only []
    refine ⟨?_, h1.2.1, ?_⟩
    · rw [h1.1, hw.1]
    · rw [h1.2.2, h2.2.2, hw.2.2, List.append_assoc]

/-- Where all `n` sequential calls return true the block write is the same run. -/
theorem writeBlock_eq_seq (addr : Nat) (buf : Nat → Nat) (n : Nat) (s : σ)
    (h : (writeByteSeq d addr buf n s).1 = true) :
    writeBlock d addr buf n s = writeByteSeq d addr buf n s := by
  induction n generalizing addr buf s with
  | zero => rfl
  | succ n ih =>
    rw [writeByteSeq_succ] at h
    simp only [Bool.and_eq_true] at h
    rw [writeBlock_ok d addr buf n s h.1, ih _ _ _ h.2, writeByteSeq_succ, h.1]
    exact Prod.ext (by simp [h.2]) rfl

/-- The block write returns true exactly when all sequential calls do. -/
theorem writeBlock_result (addr : Nat) (buf : Nat → Nat) (n : Nat) (s : σ) :
    (writeBlock d addr buf n s).1 = (writeByteSeq d addr buf n s).1 := by
  induction n generalizing addr buf s with
  | zero => rfl
  | succ n ih =>
    cases h : (write d addr (buf 0) s).1 with
    | false => rw [writeBlock_fail d addr buf n s h, writeByteSeq_succ, h]; rfl
    | true => rw [writeBlock_ok d addr buf n s h, writeByteSeq_succ, h, ih]; rfl

/-- The block write is the run of the first `k` sequential calls, where call
`k - 1` is the first to return false, or `k = n` when none does. -/
theorem writeBlock_stops (addr : Nat) (buf : Nat → Nat) (n : Nat) (s : σ) :
    ∃ k, k ≤ n ∧ (writeBlock d addr buf n s).2 = (writeByteSeq d addr buf k s).2 ∧
      ((writeBlock d addr buf n s).1 = true → k = n) ∧
      ((writeBlock d addr buf n s).1 = false →
        0 < k ∧ (writeByteSeq d addr buf (k - 1) s).1 = true ∧
        (writeByteSeq d addr buf k s).1 = false) := by
  induction n generalizing addr buf s with
  | zero => exact ⟨0, le_refl _, rfl, fun _ => rfl, by simp [writeBlock_zero]⟩
  | succ n ih =>
    cases h : (write d addr (buf 0) s).1 with
    | false =>
      refine ⟨1, by omega, ?_, ?_, ?_⟩
      · rw [writeBlock_fail d addr buf n s h, writeByteSeq_succ]; rfl
      · rw [writeBlock_fail d addr buf n s h]; simp
      · intro _
        refine ⟨by omega, rfl, ?_⟩
        rw [writeByteSeq_succ, h]; rfl
    | true =>
      obtain ⟨k, hk, hst, ht, hf⟩ :=
        ih ((addr + 1) % 65536) (fun i => buf (i + 1)) (write d addr (buf 0) s).2
      refine ⟨k + 1, by omega, ?_, ?_, ?_⟩
      · rw [writeBlock_ok d addr buf n s h, writeByteSeq_succ]; exact hst
      · rw [writeBlock_ok d addr buf n s h]; intro hh; rw [ht hh]
      · rw [writeBlock_ok d addr buf n s h]
        intro hh
        obtain ⟨hpos, hprev, hlast⟩ := hf hh
        refine ⟨by omega, ?_, ?_⟩
        · obtain ⟨m, rfl⟩ : ∃ m, k = m + 1 := ⟨k - 1, by omega⟩
          simp only [Nat.add_sub_cancel] at hprev ⊢
          rw [writeByteSeq_succ, h, hprev]; rfl
        · rw [writeByteSeq_succ, h, hlast]; rfl

theorem write_true_bus (addr v : Nat) (s : σ) (h : (write d addr v s).1 = true) :
    (d.write [(addr >>> 8) % 256, addr % 256, v] s).1 = true := by
  cases hb : (d.write [(addr >>> 8) % 256, addr % 256, v] s).1 with
  | true => rfl
  | false => rw [write_fail d addr v s hb] at h; exact absurd h (by simp)

/-- The block write stops at the first single-byte write that returns false. -/
theorem writeBlock_fail_at (addr : Nat) (buf : Nat → Nat) (n k : Nat) (s : σ)
    (ha : addr < 65536) (hk : k < n)
    (hgood : (writeByteSeq d addr buf k s).1 = true)
    (hbad : (write d ((addr + k) % 65536) (buf k) (writeByteSeq d addr buf k s).2).1 = false) :
    writeBlock d addr buf n s =
      (false, (write d ((addr + k) % 65536) (buf k) (writeByteSeq d addr buf k s).2).2) := by
  induction k generalizing addr buf n s with
  | zero =>
    obtain ⟨m, rfl⟩ : ∃ m, n = m + 1 := ⟨n - 1, by omega⟩
    have e : (addr + 0) % 65536 = addr := Nat.mod_eq_of_lt ha
    rw [e, writeByteSeq_zero] at hbad
    rw [e, writeByteSeq_zero]
    exact writeBlock_fail d addr buf m s hbad
  | succ k ih =>
    obtain ⟨m, rfl⟩ : ∃ m, n = m + 1 := ⟨n - 1, by omega⟩
    rw [writeByteSeq_succ] at hgood hbad
    simp only [Bool.and_eq_true] at hgood
    have e : ((addr + 1) % 65536 + k) % 65536 = (addr + (k + 1)) % 65536 := by omega
    rw [writeBlock_ok d addr buf m s hgood.1, writeByteSeq_succ]
    have := ih ((addr + 1) % 65536) (fun i => buf (i + 1)) m (write d addr (buf 0) s).2
      (Nat.mod_lt _ (by decide)) (by omega) hgood.2 (by rw [e]; exact hbad)
    rw [this, e]

/-- The bus writes of `k` sequential single-byte writes that all return true:
one successful transaction per byte, in order. -/
theorem busWrites_seq (addr : Nat) (buf : Nat → Nat) (k : Nat) (s : σ)
    (ha : addr < 65536) (hgood : (writeByteSeq d addr buf k s).1 = true) :
    busWrites (writeByteSeq (traced d) addr buf k (s, [])).2.2 =
      (List.range k).map (fun j =>
        ([(((addr + j) % 65536) >>> 8) % 256, (addr + j) % 65536 % 256, buf j], true)) := by
  induction k generalizing addr buf s with
  | zero => rfl
  | succ k ih =>
    rw [writeByteSeq_succ] at hgood
    simp only [Bool.and_eq_true] at hgood
    have hw := write_traced d addr (buf 0) s []
    have e : write (traced d) addr (buf 0) (s, []) =
        ((write (traced d) addr (buf 0) (s, [])).1, (write d addr (buf 0) s).2,
          (write (traced d) addr (buf 0) (s, [])).2.2) := by
      rw [← hw.2.1]
    rw [writeByteSeq_succ, e]
    simp only []
    rw [(writeByteSeq_traced d _ _ k _ _).2.2, busWrites_append, busWrites_write,
      write_true_bus d addr (buf 0) s hgood.1,
      ih ((addr + 1) % 65536) (fun i => buf (i + 1)) (write d addr (buf 0) s).2
        (Nat.mod_lt _ (by decide)) hgood.2,
      List.range_succ_eq_map, List.map_cons, List.map_map]
    have e0 : (addr + 0) % 65536 = addr := Nat.mod_eq_of_lt ha
    have e1 : ∀ j, ((addr + 1) % 65536 + j) % 65536 = (addr + (j + 1)) % 65536 := by
      intro j; omega
    simp only [e0, e1, List.singleton_append, Function.comp_def]

/-- C4, as the code has it: the block write returns true exactly when all `n`
sequential single-byte writes return true; when they all do, it issues the same
bus transactions and polls and ends in the same device state as they do; in
every case what it does is the run of the first `k` of those calls, where call
`k - 1` is the first that returns false (the later calls are not made). -/
theorem writeBlock_equiv_seq (addr : Nat) (buf : Nat → Nat) (n : Nat) (s : σ) :
    (writeBlock (traced d) addr buf n (s, [])).1 =
      (writeByteSeq (traced d) addr buf n (s, [])).1 ∧
    ((writeByteSeq (traced d) addr buf n (s, [])).1 = true →
      writeBlock (traced d) addr buf n (s, []) =
        writeByteSeq (traced d) addr buf n (s, [])) ∧
    (∃ k, k ≤ n ∧
      (writeBlock (traced d) addr buf n (s, [])).2 =
        (writeByteSeq (traced d) addr buf k (s, [])).2 ∧
      ((writeBlock (traced d) addr buf n (s, [])).1 = true → k = n) ∧
      ((writeBlock (traced d) addr buf n (s, [])).1 = false →
        0 < k ∧ (writeByteSeq (traced d) addr buf (k - 1) (s, [])).1 = true ∧
        (writeByteSeq (traced d) addr buf k (s, [])).1 = false)) :=
  ⟨writeBlock_result (traced d) addr buf n (s, []),
   writeBlock_eq_seq (traced d) addr buf n (s, []),
   writeBlock_stops (traced d) addr buf n (s, [])⟩

/-- C6, as the code has it: when the single-byte writes of bytes `0 .. k-1`
return true and the one of byte `k < n` returns false, the block write returns
false, the device is left as those `k` writes and the failed call left it, and
the bus has carried exactly the successful write transactions for bytes
`0 .. k-1` at `addr .. addr+k-1` followed by the one write transaction of byte
`k` (failed, or accepted and then never acknowledged); no write transaction is
issued for any byte after `k`. -/
theorem writeBlock_fail_fast (addr : Nat) (buf : Nat → Nat) (n k : Nat) (s : σ)
    (ha : addr < 65536) (hk : k < n)
    (hgood : (writeByteSeq d addr buf k s).1 = true)
    (hbad : (write d ((addr + k) % 65536) (buf k) (writeByteSeq d addr buf k s).2).1 = false) :
    (writeBlock d addr buf n s).1 = false ∧
    (writeBlock d addr buf n s).2 =
      (write d ((addr + k) % 65536) (buf k) (writeByteSeq d addr buf k s).2).2 ∧
    (writeBlock (traced d) addr buf n (s, [])).1 = false ∧
    busWrites (writeBlock (traced d) addr buf n (s, [])).2.2 =
      (List.range k).map (fun j =>
        ([(((addr + j) % 65536) >>> 8) % 256, (addr + j) % 65536 % 256, buf j], true)) ++
      [([(((addr + k) % 65536) >>> 8) % 256, (addr + k) % 65536 % 256, buf k],
        (d.write [(((addr + k) % 65536) >>> 8) % 256, (addr + k) % 65536 % 256, buf k]
          (writeByteSeq d addr buf k s).2).1)] := by
  have hplain := writeBlock_fail_at d addr buf n k s ha hk hgood hbad
  have hq := writeByteSeq_traced d addr buf k s []
  have eq : (writeByteSeq (traced d) addr buf k (s, [])).2 =
      ((writeByteSeq d addr buf k s).2, (writeByteSeq (traced d) addr buf k (s, [])).2.2) := by
    rw [← hq.2.1]
  have hbadT : (write (traced d) ((addr + k) % 65536) (buf k)
      (writeByteSeq (traced d) addr buf k (s, [])).2).1 = false := by
    rw [eq, (write_traced d _ _ _ _).1]; exact hbad
  have htr := writeBlock_fail_at (traced d) addr buf n k (s, []) ha hk
    (by rw [hq.1]; exact hgood) hbadT
  refine ⟨by rw [hplain], by rw [hplain], by rw [htr], ?_⟩
  rw [htr]
  simp only []
  rw [eq, (write_traced d _ _ _ _).2.2, busWrites_append, busWrites_write,
    busWrites_seq d addr buf k s ha hgood]

end BlockWrite

section BlockRead

variable {σ : Type} (d : I2CDevice σ)

theorem readLoop_zero (i addr : Nat) (buf : Nat → Nat) (s : σ) :
    readLoop d 0 i addr buf s = (true, buf, s) := rfl

theorem readLoop_fail (n i addr : Nat) (buf : Nat → Nat) (s : σ)
    (h : (d.write_then_read [(addr >>> 8) % 256, addr % 256] 1 s).1 = false) :
    readLoop d (n + 1) i addr buf s =
      (false, buf, (d.write_then_read [(addr >>> 8) % 256, addr % 256] 1 s).2.2) := by
  simp [readLoop, h]

theorem readLoop_ok (n i addr : Nat) (buf : Nat → Nat) (s : σ)
    (h : (d.write_then_read [(addr >>> 8) % 256, addr % 256] 1 s).1 = true) :
    readLoop d (n + 1) i addr buf s =
      readLoop d n (i + 1) ((addr + 1) % 65536)
        (Function.update buf i
          ((d.write_then_read [(addr >>> 8) % 256, addr % 256] 1 s).2.1.headD
            ((addr >>> 8) % 256)))
        (d.write_then_read [(addr >>> 8) % 256, addr % 256] 1 s).2.2 := by
  simp [readLoop, h]

theorem busAfterReads_succ (j addr : Nat) (s : σ) :
    busAfterReads d (j + 1) addr s =
      busAfterReads d j ((addr + 1) % 65536)
        (d.write_then_read [(addr >>> 8) % 256, addr % 256] 1 s).2.2 := rfl

theorem nthRead_zero (addr : Nat) (s : σ) (ha : addr < 65536) :
    nthRead d addr s 0 =
      ((d.write_then_read [(addr >>> 8) % 256, addr % 256] 1 s).1,
       (d.write_then_read [(addr >>> 8) % 256, addr % 256] 1 s).2.1) := by
  have e : (addr + 0) % 65536 = addr := Nat.mod_eq_of_lt ha
  simp only [nthRead, e, busAfterReads]

theorem nthRead_succ (addr : Nat) (s : σ) (j : Nat) :
    nthRead d addr s (j + 1) =
      nthRead d ((addr + 1) % 65536)
        (d.write_then_read [(addr >>> 8) % 256, addr % 256] 1 s).2.2 j := by
  have e : ((addr + 1) % 65536 + j) % 65536 = (addr + (j + 1)) % 65536 := by omega
  simp only [nthRead, e, busAfterReads_succ]

theorem byteAt_zero (addr : Nat) (s : σ) (ha : addr < 65536) :
    byteAt d addr s 0 =
      (d.write_then_read [(addr >>> 8) % 256, addr % 256] 1 s).2.1.headD
        ((addr >>> 8) % 256) := by
  have e : (addr + 0) % 65536 = addr := Nat.mod_eq_of_lt ha
  simp only [byteAt, nthRead_zero d addr s ha, e]

theorem byteAt_succ (addr : Nat) (s : σ) (j : Nat) :
    byteAt d addr s (j + 1) =
      byteAt d ((addr + 1) % 65536)
        (d.write_then_read [(addr >>> 8) % 256, addr % 256] 1 s).2.2 j := by
  have e : ((addr + 1) % 65536 + j) % 65536 = (addr + (j + 1)) % 65536 := by omega
  simp only [byteAt, nthRead_succ, e]

/-- While transactions `0 .. k-1` succeed the loop stores their bytes in slots
`i .. i+k-1` and goes on from slot `i + k`. -/
theorem readLoop_skip (k m i addr : Nat) (buf : Nat → Nat) (s : σ) (ha : addr < 65536)
    (h : ∀ j, j < k → (nthRead d addr s j).1 = true) :
    readLoop d (k + m) i addr buf s =
      readLoop d m (i + k) ((addr + k) % 65536)
        (fun x => if i ≤ x ∧ x < i + k then byteAt d addr s (x - i) else buf x)
        (busAfterReads d k addr s) := by
  induction k generalizing i addr buf s with
  | zero =>
    have e : (addr + 0) % 65536 = addr := Nat.mod_eq_of_lt ha
    have eb : (fun x => if i ≤ x ∧ x < i + 0 then byteAt d addr s (x - i) else buf x) = buf := by
      funext x
      rw [if_neg (by omega)]
    rw [e, eb]; simp [busAfterReads]
  | succ k ih =>
    have h0 := h 0 (Nat.succ_pos k)
    rw [nthRead_zero d addr s ha] at h0
    have e : k + 1 + m = (k + m) + 1 := by omega
    rw [e, readLoop_ok d (k + m) i addr buf s h0,
      ih (i + 1) ((addr + 1) % 65536) _ _ (Nat.mod_lt _ (by decide))
        (fun j hj => by rw [← nthRead_succ]; exact h (j + 1) (by omega))]
    have e1 : ((addr + 1) % 65536 + k) % 65536 = (addr + (k + 1)) % 65536 := by omega
    have e2 : i + 1 + k = i + (k + 1) := by omega
    rw [e1, e2, busAfterReads_succ]
    congr 1
    funext x
    by_cases hx : x = i
    · subst hx
      rw [if_neg (by omega), if_pos (by omega), Function.update_same, Nat.sub_self,
        byteAt_zero d addr s ha]
    · rw [Function.update_noteq hx]
      by_cases hr : i + 1 ≤ x ∧ x < i + (k + 1)
      · rw [if_pos hr, if_pos (by omega), ← byteAt_succ]
        congr 1
        omega
      · rw [if_neg hr, if_neg (by omega)]

theorem readLog_succ (addr : Nat) (s : σ) (m : Nat) (ha : addr < 65536) :
    readLog d addr s (m + 1) =
      Event.writeThenRead [(addr >>> 8) % 256, addr % 256] 1
        (d.write_then_read [(addr >>> 8) % 256, addr % 256] 1 s).1
        (d.write_then_read [(addr >>> 8) % 256, addr % 256] 1 s).2.1 ::
      readLog d ((addr + 1) % 65536)
        (d.write_then_read [(addr >>> 8) % 256, addr % 256] 1 s).2.2 m := by
  have e0 : (addr + 0) % 65536 = addr := Nat.mod_eq_of_lt ha
  have e1 : ∀ j, ((addr + 1) % 65536 + j) % 65536 = (addr + (j + 1)) % 65536 := by
    intro j; omega
  simp only [readLog, List.range_succ_eq_map, List.map_cons, List.map_map, Function.comp_def,
    nthRead_zero d addr s ha, e0, nthRead_succ, e1, Nat.succ_eq_add_one]

theorem busAfterReads_traced (j addr : Nat) (s : σ) (τ : List Event) (ha : addr < 65536) :
    busAfterReads (traced d) j addr (s, τ) =
      (busAfterReads d j addr s, τ ++ readLog d addr s j) := by
  induction j generalizing addr s τ with
  | zero => simp [busAfterReads, readLog]
  | succ j ih =>
    rw [busAfterReads_succ, busAfterReads_succ, traced_write_then_read]
    simp only []
    rw [ih _ _ _ (Nat.mod_lt _ (by decide)), readLog_succ d addr s j ha]
    simp

theorem nthRead_traced (addr : Nat) (s : σ) (τ : List Event) (j : Nat) (ha : addr < 65536) :
    nthRead (traced d) addr (s, τ) j = nthRead d addr s j := by
  simp only [nthRead, busAfterReads_traced d j addr s τ ha, traced_write_then_read]

theorem byteAt_traced (addr : Nat) (s : σ) (τ : List Event) (j : Nat) (ha : addr < 65536) :
    byteAt (traced d) addr (s, τ) j = byteAt d addr s j := by
  simp only [byteAt, nthRead_traced d addr s τ j ha]

/-- The block read when every transaction succeeds. -/
theorem readBlock_all_ok (addr : Nat) (buf : Nat → Nat) (n : Nat) (s : σ) (ha : addr < 65536)
    (h : ∀ j, j < n → (nthRead d addr s j).1 = true) :
    readBlock d addr buf n s =
      (true, (fun x => if x < n then byteAt d addr s x else buf x), busAfterReads d n addr s) := by
  have e := readLoop_skip d n 0 0 addr buf s ha h
  rw [Nat.add_zero, readLoop_zero] at e
  rw [readBlock, e]
  simp

/-- The block read when transaction `k` is the first that fails. -/
theorem readBlock_fail_at (addr : Nat) (buf : Nat → Nat) (n k : Nat) (s : σ)
    (ha : addr < 65536) (hk : k < n)
    (h : ∀ j, j < k → (nthRead d addr s j).1 = true) (hf : (nthRead d addr s k).1 = false) :
    readBlock d addr buf n s =
      (false, (fun x => if x < k then byteAt d addr s x else buf x),
        busAfterReads d (k + 1) addr s) := by
  have e := readLoop_skip d k (n - k - 1 + 1) 0 addr buf s ha h
  have en : k + (n - k - 1 + 1) = n := by omega
  rw [en, readLoop_fail d _ _ _ _ _ hf] at e
  rw [readBlock, e]
  have hb : busAfterReads d (k + 1) addr s =
      (d.write_then_read [(((addr + k) % 65536) >>> 8) % 256, (addr + k) % 65536 % 256] 1
        (busAfterReads d k addr s)).2.2 := by
    clear e hf h hk en
    induction k generalizing addr s with
    | zero =>
      simp [busAfterReads, Nat.mod_eq_of_lt ha]
    | succ k ih =>
      have e1 : ((addr + 1) % 65536 + k) % 65536 = (addr + (k + 1)) % 65536 := by omega
      rw [busAfterReads_succ, ih _ _ (Nat.mod_lt _ (by decide)), e1, busAfterReads_succ]
  rw [hb]
  simp

/-- The log of a block read in which transaction `k` is the first to fail. -/
theorem readBlock_log_fail (addr : Nat) (buf : Nat → Nat) (n k : Nat) (s : σ)
    (ha : addr < 65536) (hk : k < n)
    (h : ∀ j, j < k → (nthRead d addr s j).1 = true) (hf : (nthRead d addr s k).1 = false) :
    (readBlock (traced d) addr buf n (s, [])).2.2.2 = readLog d addr s (k + 1) := by
  have hT := readBlock_fail_at (traced d) addr buf n k (s, []) ha hk
    (fun j hj => by rw [nthRead_traced d addr s [] j ha]; exact h j hj)
    (by rw [nthRead_traced d addr s [] k ha]; exact hf)
  rw [hT, busAfterReads_traced d (k + 1) addr s [] ha]
  simp

/-- The log of a block read in which no transaction fails. -/
theorem readBlock_log_ok (addr : Nat) (buf : Nat → Nat) (n : Nat) (s : σ)
    (ha : addr < 65536) (h : ∀ j, j < n → (nthRead d addr s j).1 = true) :
    (readBlock (traced d) addr buf n (s, [])).2.2.2 = readLog d addr s n := by
  have hT := readBlock_all_ok (traced d) addr buf n (s, []) ha
    (fun j hj => by rw [nthRead_traced d addr s [] j ha]; exact h j hj)
  rw [hT, busAfterReads_traced d n addr s [] ha]
  simp

/-- C7: when transaction `k < n` of a block read is the first that fails, the
call returns false, the bus has carried exactly the transactions `0 .. k` (none
after the failing one), slots `0 .. k-1` hold the bytes read from `addr ..
addr+k-1` and every slot from `k` on is as it was before the call; when no
transaction fails the call returns true after exactly `n` transactions and
every slot `i < n` holds the byte read from `addr + i`. -/
theorem readBlock_fail_fast (addr : Nat) (buf : Nat → Nat) (n : Nat) (s : σ)
    (ha : addr < 65536) :
    (∀ k, k < n → (∀ j, j < k → (nthRead d addr s j).1 = true) →
      (nthRead d addr s k).1 = false →
      (readBlock d addr buf n s).1 = false ∧
      (readBlock (traced d) addr buf n (s, [])).2.2.2 = readLog d addr s (k + 1) ∧
      (∀ i, i < k → (readBlock d addr buf n s).2.1 i = byteAt d addr s i) ∧
      (∀ i, k ≤ i → (readBlock d addr buf n s).2.1 i = buf i)) ∧
    ((∀ j, j < n → (nthRead d addr s j).1 = true) →
      (readBlock d addr buf n s).1 = true ∧
      (readBlock (traced d) addr buf n (s, [])).2.2.2 = readLog d addr s n ∧
      (∀ i, i < n → (readBlock d addr buf n s).2.1 i = byteAt d addr s i)) := by
  constructor
  · intro k hk h hf
    refine ⟨?_, readBlock_log_fail d addr buf n k s ha hk h hf, ?_, ?_⟩
    · rw [readBlock_fail_at d addr buf n k s ha hk h hf]
    · intro i hi
      rw [readBlock_fail_at d addr buf n k s ha hk h hf]
      simp [hi]
    · intro i hi
      rw [readBlock_fail_at d addr buf n k s ha hk h hf]
      exact if_neg (by omega)
  · intro h
    refine ⟨?_, readBlock_log_ok d addr buf n s ha h, ?_⟩
    · rw [readBlock_all_ok d addr buf n s ha h]
    · intro i hi
      rw [readBlock_all_ok d addr buf n s ha h]
      simp [hi]

end BlockRead

section Initialisation

/-- C10, evaluated on the code: with no explicit handle and a default bus that
is not ready, `begin` builds no device object but still goes on to
`i2c_dev->begin()`.  On a driver fresh from its constructor there is no device
object behind the pointer, so the call has no defined result; on a driver that
an earlier `begin(0x50, handle 1)` initialised, the old device object is asked
again and its answer, here true, is returned. -/
theorem begin_unready_default_reaches_device :
    begin (fun _ => false) (fun _ _ => true) (Driver.new 2) 0x50 none =
      (none, { hi2c := 2, i2c_dev := none, _addr := 0x50 }, []) ∧
    (begin (fun _ => true) (fun _ _ => true) (Driver.new 2) 0x50 (some 1)).2.1 =
      { hi2c := 1, i2c_dev := some (0x50, 1), _addr := 0x50 } ∧
    begin (fun _ => false) (fun _ _ => true)
        { hi2c := 1, i2c_dev := some (0x50, 1), _addr := 0x50 } 0x50 none =
      (some true, { hi2c := 1, i2c_dev := some (0x50, 1), _addr := 0x50 },
        [DevCall.begin 0x50 1]) := by
  decide

end Initialisation

section Examples

set_option maxRecDepth 100000

/-- C4 as stated fails on a bus whose write transactions all fail: the block
write of two bytes stops after the first failed transaction, two sequential
single-byte writes issue both. -/
theorem writeBlock_not_equiv_seq :
    (writeBlock (traced (simBus 3 (fun _ => true))) 0 (fun i => i + 1) 2 (Sim.init, [])).2.2 =
      [Event.write [0, 0, 1] false] ∧
    (writeByteSeq (traced (simBus 3 (fun _ => true))) 0 (fun i => i + 1) 2 (Sim.init, [])).2.2 =
      [Event.write [0, 0, 1] false, Event.write [0, 1, 2] false] ∧
    (writeBlock (traced (simBus 3 (fun _ => true))) 0 (fun i => i + 1) 2 (Sim.init, [])).2.2 ≠
      (writeByteSeq (traced (simBus 3 (fun _ => true))) 0 (fun i => i + 1) 2
        (Sim.init, [])).2.2 := by
  decide

/-- C6 as stated fails when byte `k` fails by write-commit timeout: on a chip
that accepts writes and then stays busy for 1000 ms, the single-byte write of
byte 0 returns false and so does the block write, yet the write payload of
byte 0 was accepted on the bus and the chip holds the value. -/
theorem writeBlock_timeout_byte_reaches_device :
    (write (simBus 1000 (fun _ => false)) 0 5 Sim.init).1 = false ∧
    (writeBlock (simBus 1000 (fun _ => false)) 0 (fun _ => 5) 1 Sim.init).1 = false ∧
    busWrites (writeBlock (traced (simBus 1000 (fun _ => false))) 0 (fun _ => 5) 1
      (Sim.init, [])).2.2 = [([0, 0, 5], true)] ∧
    (writeBlock (simBus 1000 (fun _ => false)) 0 (fun _ => 5) 1 Sim.init).2.mem 0 = 5 := by
  decide

theorem simBus_pollState_busy (cycle : Nat) (fails : Nat → Bool) (j : Nat) (s : Sim) :
    (pollState (simBus cycle fails) j s).busy = s.busy - j := by
  induction j with
  | zero => rfl
  | succ j ih =>
    show (pollState (simBus cycle fails) j s).busy - 1 = s.busy - (j + 1)
    rw [ih]; omega

theorem simBus_store (cycle : Nat) (hi lo v : Nat) (s : Sim) :
    ((simBus cycle (fun _ => false)).write [hi, lo, v] s).1 = true ∧
    ((simBus cycle (fun _ => false)).write [hi, lo, v] s).2.mem (256 * hi + lo) = v := by
  simp [simBus]

theorem simBus_ack (cycle : Nat) (hc : cycle < 100) (hi lo v : Nat) (s : Sim) :
    ∃ j, j < 100 ∧
      ((simBus cycle (fun _ => false)).detected
        (pollState (simBus cycle (fun _ => false)) j
          ((simBus cycle (fun _ => false)).write [hi, lo, v] s).2)).1 = true := by
  refine ⟨cycle, hc, ?_⟩
  show ((pollState (simBus cycle (fun _ => false)) cycle
    ((simBus cycle (fun _ => false)).write [hi, lo, v] s).2).busy == 0) = true
  rw [simBus_pollState_busy]
  simp [simBus]

theorem simBus_read (cycle : Nat) (hi lo : Nat) (s : Sim) :
    ((simBus cycle (fun _ => false)).write_then_read [hi, lo] 1 s).1 = true ∧
    ((simBus cycle (fun _ => false)).write_then_read [hi, lo] 1 s).2.1 =
      [s.mem (256 * hi + lo)] := by
  simp [simBus]

theorem write_read_round_trip_witness :
    (write (simBus 5 (fun _ => false)) 0x1234 0xAB Sim.init).1 = true ∧
    (read (simBus 5 (fun _ => false)) 0x1234
      (write (simBus 5 (fun _ => false)) 0x1234 0xAB Sim.init).2).1 = 0xAB :=
  write_read_round_trip (simBus 5 (fun _ => false)) Sim.mem
    (fun hi lo v s _ _ _ => simBus_store 5 hi lo v s)
    (fun _ => rfl) (fun _ _ => rfl)
    (fun hi lo v s => simBus_ack 5 (by decide) hi lo v s)
    (fun hi lo s _ _ => simBus_read 5 hi lo s)
    0x1234 0xAB Sim.init (by decide)

theorem write_true_iff_witness :
    (write (simBus 3 (fun _ => false)) 0x1234 7 Sim.init).1 = true ∧
    ((simBus 3 (fun _ => true)).write [(0x1234 >>> 8) % 256, 0x1234 % 256, 7] Sim.init).1 = false ∧
    (write (simBus 3 (fun _ => true)) 0x1234 7 Sim.init).1 = false ∧
    (write (traced (simBus 3 (fun _ => true))) 0x1234 7 (Sim.init, [])).2.2 =
      [Event.write [(0x1234 >>> 8) % 256, 0x1234 % 256, 7] false] :=
  ⟨(write_true_iff (simBus 3 (fun _ => false)) 0x1234 7 Sim.init).1.mpr
      ⟨by decide, 3, by decide, by decide⟩,
    by decide, (write_true_iff (simBus 3 (fun _ => true)) 0x1234 7 Sim.init).2.2.2.2.2 (by decide)⟩

theorem write_wire_layout_witness :
    0x1234 < 65536 ∧
    busWrites (write (traced (simBus 3 (fun _ => false))) 0x1234 7 (Sim.init, [])).2.2 =
      [([0x1234 / 256, 0x1234 % 256, 7],
        ((simBus 3 (fun _ => false)).write [0x1234 / 256, 0x1234 % 256, 7] Sim.init).1)] :=
  ⟨by decide,
    (write_wire_layout (simBus 3 (fun _ => false)) 0x1234 7 Sim.init (by decide)).2.1⟩

theorem writeBlock_equiv_seq_witness :
    (writeByteSeq (traced (simBus 3 (fun _ => false))) 0xFF (fun i => i + 10) 2
      (Sim.init, [])).1 = true ∧
    writeBlock (traced (simBus 3 (fun _ => false))) 0xFF (fun i => i + 10) 2 (Sim.init, []) =
      writeByteSeq (traced (simBus 3 (fun _ => false))) 0xFF (fun i => i + 10) 2
        (Sim.init, []) :=
  ⟨by decide,
    (writeBlock_equiv_seq (simBus 3 (fun _ => false)) 0xFF (fun i => i + 10) 2 Sim.init).2.1
      (by decide)⟩

theorem writeBlock_fail_fast_witness :
    (writeByteSeq (simBus 3 (fun c => c == 1)) 0xFF (fun i => i + 10) 1 Sim.init).1 = true ∧
    (write (simBus 3 (fun c => c == 1)) ((0xFF + 1) % 65536) 11
      (writeByteSeq (simBus 3 (fun c => c == 1)) 0xFF (fun i => i + 10) 1 Sim.init).2).1 = false ∧
    (writeBlock (simBus 3 (fun c => c == 1)) 0xFF (fun i => i + 10) 3 Sim.init).1 = false :=
  ⟨by decide, by decide,
    (writeBlock_fail_fast (simBus 3 (fun c => c == 1)) 0xFF (fun i => i + 10) 3 1 Sim.init
      (by decide) (by decide) (by decide) (by decide)).1⟩

theorem readBlock_fail_fast_witness :
    (∀ j, j < 1 → (nthRead (simBus 3 (fun c => c == 1)) 0xFF Sim.init j).1 = true) ∧
    (nthRead (simBus 3 (fun c => c == 1)) 0xFF Sim.init 1).1 = false ∧
    (readBlock (simBus 3 (fun c => c == 1)) 0xFF (fun _ => 7) 3 Sim.init).1 = false ∧
    (readBlock (traced (simBus 3 (fun c => c == 1))) 0xFF (fun _ => 7) 3
      (Sim.init, [])).2.2.2 = readLog (simBus 3 (fun c => c == 1)) 0xFF Sim.init (1 + 1) :=
  ⟨by decide, by decide,
    ((readBlock_fail_fast (simBus 3 (fun c => c == 1)) 0xFF (fun _ => 7) 3 Sim.init
      (by decide)).1 1 (by decide) (by decide) (by decide)).1,
    ((readBlock_fail_fast (simBus 3 (fun c => c == 1)) 0xFF (fun _ => 7) 3 Sim.init
      (by decide)).1 1 (by decide) (by decide) (by decide)).2.1⟩

theorem write_poll_boundary_witness :
    ((simBus 1000 (fun _ => false)).write [(0x1234 >>> 8) % 256, 0x1234 % 256, 7]
      Sim.init).1 = true ∧
    pollCount (write (traced (simBus 1000 (fun _ => false))) 0x1234 7 (Sim.init, [])).2.2 = 100 ∧
    pollCount (write (traced (simBus 3 (fun _ => false))) 0x1234 7 (Sim.init, [])).2.2 = 4 :=
  ⟨by decide,
    ((write_poll_boundary (simBus 1000 (fun _ => false)) 0x1234 7 Sim.init (by decide)).1
      (by decide)).2.2,
    ((write_poll_boundary (simBus 3 (fun _ => false)) 0x1234 7 Sim.init (by decide)).2
      4 (by decide) (by decide) (by decide) (by decide)).2.2⟩

theorem read_single_transaction_witness :
    0x1234 < 65536 ∧
    (read (simBus 3 (fun _ => false)) 0x1234
      { mem := fun a => a % 251, busy := 0, calls := 0 }).1 = 0x1234 % 251 :=
  ⟨by decide,
    (read_single_transaction (simBus 3 (fun _ => false)) 0x1234
      { mem := fun a => a % 251, busy := 0, calls := 0 } (by decide)).2.2.2
      (0x1234 % 251) [] (by decide) (by decide)⟩

end Examples

end EEPROM
